import Mathlib

/-!
Verification of the agentic-memory P2P knowledge substrate.

This file shallowly embeds the parts of the repository relevant to the
frozen claims: the routing table and method→capability table
(src/p2p/routing.py), the gossip receive path (src/p2p/gossip.py), the
envelope dedup gate (src/p2p/node.py), the local agent state
(src/p2p/local_state.py), the worker-agent startup loop
(src/agents/base.py), the schema store persistence (src/schema/store.py),
the predicate schema (src/schema/loader.py), the validator tick
(src/agents/validator.py), the memory-service observe trace
(src/interfaces.py) and the flag_contradiction call path
(src/p2p/memory_client.py, src/p2p/node.py).

Conventions: Python dicts that preserve insertion order are modelled as
association lists `List (String × β)`; Python sets used only for
membership are modelled as lists; `float` timestamps are modelled as `Rat`
(they are only ever compared); random selection (`random.choice`) is
modelled by an explicit index parameter `r`; effectful calls (graph store
writes, filesystem writes) are modelled as traces of operation values.
-/

namespace AgenticMemory

/-- Lookup in an insertion-ordered association list (Python `dict.get`). -/
def alookup {β : Type} : List (String × β) → String → Option β
  | [], _ => none
  | (k, v) :: rest, key => if k = key then some v else alookup rest key

/-- Assignment in an insertion-ordered association list (Python `d[k] = v`):
replaces in place when the key exists, otherwise appends. -/
def aset {β : Type} : List (String × β) → String → β → List (String × β)
  | [], key, v => [(key, v)]
  | (k, w) :: rest, key, v =>
    if k = key then (k, v) :: rest else (k, w) :: aset rest key v

/-- Values of an association list in insertion order (Python `dict.values()`). -/
def avalues {β : Type} (l : List (String × β)) : List β :=
  l.map (fun kv => kv.2)

/-- Python str.strip(): remove leading and trailing whitespace. -/
def pyStrip (s : String) : String :=
  String.mk
    (((s.data.dropWhile Char.isWhitespace).reverse.dropWhile Char.isWhitespace).reverse)

/-- Python str.lower(). -/
def pyLower (s : String) : String := String.mk (s.data.map Char.toLower)

/-- Python str.upper(). -/
def pyUpper (s : String) : String := String.mk (s.data.map Char.toUpper)

/-- Python str.replace(old, new) for single-character old and new (the only
form the embedded code uses). -/
def pyReplaceChar (old new : Char) (s : String) : String :=
  String.mk (s.data.map (fun c => if c = old then new else c))

/-- Python string comparison: lexicographic on code points. -/
def charListLt : List Char → List Char → Bool
  | [], [] => false
  | [], _ :: _ => true
  | _ :: _, [] => false
  | a :: as, b :: bs =>
    if a.toNat < b.toNat then true
    else if b.toNat < a.toNat then false
    else charListLt as bs

/-- Python `a < b` on strings. -/
def pyStrLt (a b : String) : Bool := charListLt a.data b.data

/-- The single-quote character, used when the validator formats reasons. -/
def sq : String := (Char.ofNat 39).toString

/-- Capability enum from src/p2p/types.py. -/
inductive Capability
  | store
  | llm
  | inference
  | validation
  | cli
deriving DecidableEq

/-- Immutable peer identity from src/p2p/types.py (PeerInfo). -/
structure PeerInfo where
  node_id : String
  capabilities : List Capability
  http_url : String
  ws_url : String
  started_at : Rat := 0
  version : String := "0.3.0"
deriving DecidableEq

/-- Peer liveness status (the `status` string field of PeerState). -/
inductive PStatus
  | alive
  | suspect
  | dead
deriving DecidableEq

/-- Mutable per-peer state from src/p2p/types.py (PeerState). -/
structure PeerState where
  info : PeerInfo
  status : PStatus := PStatus.alive
  last_seen : Rat := 0
  heartbeat_seq : Nat := 0
  metadata : List (String × String) := []
deriving DecidableEq

/-- The routing table's `_peers` dict from src/p2p/routing.py. -/
abbrev RoutingTable : Type := List (String × PeerState)

/-- RoutingTable.update_peer (src/p2p/routing.py lines 34-55): insert if new,
replace on strictly higher heartbeat_seq, otherwise refresh last_seen and
revive when the incoming last_seen is strictly newer. Returns the updated
table and whether the information was new. -/
def updatePeer (rt : RoutingTable) (state : PeerState) : RoutingTable × Bool :=
  match alookup rt state.info.node_id with
  | none => (rt ++ [(state.info.node_id, state)], true)
  | some existing =>
    if existing.heartbeat_seq < state.heartbeat_seq then
      (aset rt state.info.node_id state, true)
    else if existing.last_seen < state.last_seen then
      (aset rt state.info.node_id
        { existing with last_seen := state.last_seen, status := PStatus.alive }, false)
    else
      (rt, false)

/-- Python `required.issubset(capabilities)`. -/
def capSubset (required caps : List Capability) : Bool :=
  required.all (fun c => decide (c ∈ caps))

/-- METHOD_CAPABILITIES from src/p2p/routing.py lines 10-21, with the
`.get(method, set())` default of an empty requirement for any method not
in the table. -/
def methodCapabilities (method : String) : List Capability :=
  match method with
  | "observe" => [Capability.store, Capability.llm]
  | "claim" => [Capability.store, Capability.llm]
  | "remember" => [Capability.store, Capability.llm]
  | "infer" => [Capability.llm]
  | "get_recent_observations" => [Capability.store]
  | "get_recent_statements" => [Capability.store]
  | "get_unresolved_contradictions" => [Capability.store]
  | "get_concepts" => [Capability.store]
  | "flag_contradiction" => [Capability.store]
  | "clear" => [Capability.store]
  | _ => []

/-- The method→capability table as the specification words it (spec section
4.1): identical to `methodCapabilities` except that it also lists
`get_schema` and `update_schema` with required set containing the store
capability. Declared only to compare the spec's table with the code's. -/
def specMethodCapabilities (method : String) : List Capability :=
  match method with
  | "get_schema" => [Capability.store]
  | "update_schema" => [Capability.store]
  | m => methodCapabilities m

/-- Candidate filter inside RoutingTable.route_method (src/p2p/routing.py
lines 79-86): alive, not excluded, and holding every required capability. -/
def routeCandidates (rt : RoutingTable) (method exclude : String) : List PeerState :=
  (avalues rt).filter (fun ps =>
    decide (ps.status = PStatus.alive) &&
    decide (ps.info.node_id ≠ exclude) &&
    capSubset (methodCapabilities method) ps.info.capabilities)

/-- RoutingTable.route_method (src/p2p/routing.py lines 73-89).
`random.choice` is modelled by selecting index `r mod length` of the
candidate list; the claims hold for every draw `r`. -/
def routeMethod (rt : RoutingTable) (method exclude : String) (r : Nat) :
    Option PeerState :=
  let candidates := routeCandidates rt method exclude
  if candidates.isEmpty then none
  else candidates.get? (r % candidates.length)

/-- ValidatorAgent.event_types from src/agents/validator.py lines 45-46. -/
def validatorEventTypes : List String := ["claim"]

/-- Outcome of one WorkerAgent._tick (src/agents/base.py lines 250-268).
The `except Exception` inside `_tick` traps any exception raised by
`process()`, so `raised` is false on both branches; a failing tick only
increments the error counter. -/
structure TickResult where
  raised : Bool
  errorDelta : Nat
  itemsDelta : Nat
deriving DecidableEq

/-- WorkerAgent._tick applied to one `process()` outcome (ok with a list of
claim texts, or an exception carried as an error string). -/
def tickModel (proc : Except String (List String)) : TickResult :=
  match proc with
  | Except.ok claims => { raised := false, errorDelta := 0, itemsDelta := claims.length }
  | Except.error _ => { raised := false, errorDelta := 1, itemsDelta := 0 }

/-- Result of the startup phase of WorkerAgent.run. -/
inductive StartupResult
  | proceeded (attempt : Nat)
  | gaveUp
deriving DecidableEq

/-- The startup retry loop of WorkerAgent.run (src/agents/base.py lines
183-194): `for attempt in range(1, 13)`, break on a tick that does not
raise, otherwise sleep five seconds and retry; the loop's `else` branch
gives up. `procs n` is the outcome of `process()` on attempt `n`. -/
def startupLoop (procs : Nat → Except String (List String)) :
    Nat → Nat → StartupResult
  | _, 0 => StartupResult.gaveUp
  | attempt, fuel + 1 =>
    if (tickModel (procs attempt)).raised then
      startupLoop procs (attempt + 1) fuel
    else
      StartupResult.proceeded attempt

/-- Startup phase of WorkerAgent.run: twelve attempts starting at 1. -/
def startup (procs : Nat → Except String (List String)) : StartupResult :=
  startupLoop procs 1 12

/-- Helper: anything returned by `routeMethod` is one of the filtered
candidates. -/
theorem routeMethod_mem_candidates {rt : RoutingTable} {method exclude : String}
    {r : Nat} {p : PeerState} (h : routeMethod rt method exclude r = some p) :
    p ∈ routeCandidates rt method exclude := by
  unfold routeMethod at h
  by_cases he : (routeCandidates rt method exclude).isEmpty
  · simp [he] at h
  · simp only [he, if_false] at h
    exact List.get?_mem h

/-- Helper: the candidate filter only admits alive, non-excluded peers
holding all required capabilities. -/
theorem routeCandidates_sound {rt : RoutingTable} {method exclude : String}
    {p : PeerState} (h : p ∈ routeCandidates rt method exclude) :
    p.status = PStatus.alive ∧
    capSubset (methodCapabilities method) p.info.capabilities = true ∧
    p.info.node_id ≠ exclude := by
  unfold routeCandidates at h
  have h2 := (List.mem_filter.mp h).2
  simp only [Bool.and_eq_true, decide_eq_true_eq] at h2
  exact ⟨h2.1.1, h2.2, h2.1.2⟩

/-- C4 (amended). route_method returns only peers that are alive, distinct
from the excluded id, and hold every capability that the code's
METHOD_CAPABILITIES table requires for the method; it returns none exactly
when no such peer exists. (The code's table omits get_schema and
update_schema, so for those two methods the required set defaults to the
empty set and any alive peer may be returned.) -/
theorem route_method_sound_complete :
    ∀ (rt : RoutingTable) (method exclude : String) (r : Nat),
      (∀ p, routeMethod rt method exclude r = some p →
        p.status = PStatus.alive ∧
        capSubset (methodCapabilities method) p.info.capabilities = true ∧
        p.info.node_id ≠ exclude)
      ∧ (routeMethod rt method exclude r = none ↔
          routeCandidates rt method exclude = []) := by
  intro rt method exclude r
  constructor
  · intro p hp
    exact routeCandidates_sound (routeMethod_mem_candidates hp)
  · constructor
    · intro hnone
      unfold routeMethod at hnone
      by_cases he : (routeCandidates rt method exclude).isEmpty
      · exact List.isEmpty_iff.mp he
      · exfalso
        simp only [he, if_false] at hnone
        have hlen : 0 < (routeCandidates rt method exclude).length := by
          cases hc : routeCandidates rt method exclude with
          | nil => rw [hc] at he; simp [List.isEmpty] at he
          | cons a l => simp
        have hlt : r % (routeCandidates rt method exclude).length <
            (routeCandidates rt method exclude).length := Nat.mod_lt _ hlen
        rw [List.get?_eq_get hlt] at hnone
        exact Option.noConfusion hnone
    · intro hnil
      unfold routeMethod
      simp [hnil]

/-- Witness for `route_method_sound_complete` at a concrete one-peer table. -/
def storePeer : PeerState :=
  { info := { node_id := "s1", capabilities := [Capability.store],
              http_url := "http://s:9000", ws_url := "ws://s:9000/p2p/ws" } }

/-- Concrete routing table holding only `storePeer`. -/
def rtStore : RoutingTable := [("s1", storePeer)]

/-- Witness: applying the routing soundness theorem at a concrete table and
the `clear` method. -/
theorem route_method_sound_complete_witness :
    storePeer.status = PStatus.alive ∧
    capSubset (methodCapabilities "clear") storePeer.info.capabilities = true ∧
    storePeer.info.node_id ≠ "" :=
  (route_method_sound_complete rtStore "clear" "" 0).1 storePeer (by decide)

/-- A peer advertising only the llm capability. -/
def llmOnlyPeer : PeerState :=
  { info := { node_id := "p1", capabilities := [Capability.llm],
              http_url := "http://p:9000", ws_url := "ws://p:9000/p2p/ws" } }

/-- Concrete routing table holding only `llmOnlyPeer`. -/
def rtLlmOnly : RoutingTable := [("p1", llmOnlyPeer)]

/-- C4 counterexample: the spec's table requires the store capability for
update_schema, but the code's METHOD_CAPABILITIES has no entry for it, so
route_method resolves update_schema with an empty requirement and returns a
peer that lacks store. -/
theorem route_method_update_schema_ignores_store_cex :
    routeMethod rtLlmOnly "update_schema" "" 0 = some llmOnlyPeer ∧
    Capability.store ∈ specMethodCapabilities "update_schema" ∧
    Capability.store ∉ llmOnlyPeer.info.capabilities ∧
    methodCapabilities "update_schema" = [] := by decide

/-- C5. The validator's declared event-type set is exactly ["claim"]; in
particular it does not include "schema_updated", so a schema_updated event
never reaches the validator and no schema rebuild can occur. -/
theorem validator_event_types_lacks_schema_updated :
    validatorEventTypes = ["claim"] ∧
    "schema_updated" ∉ validatorEventTypes := by decide

/-- Helper: `_tick` traps every exception from `process()`, so no tick ever
raises to its caller. -/
theorem tick_never_raises (p : Except String (List String)) :
    (tickModel p).raised = false := by
  cases p <;> rfl

/-- C6. The startup retry loop of WorkerAgent.run never retries: because
`_tick` traps all exceptions internally, the first attempt always appears
successful, so even a `process()` that raises on every call proceeds to the
steady-state loop after attempt 1 and the agent never gives up. -/
theorem startup_retry_never_retries :
    (∀ procs, startup procs = StartupResult.proceeded 1) ∧
    startup (fun _ => Except.error "connection refused") =
      StartupResult.proceeded 1 := by
  constructor
  · intro procs
    show (if (tickModel (procs 1)).raised then startupLoop procs 2 11
          else StartupResult.proceeded 1) = StartupResult.proceeded 1
    rw [tick_never_raises]
    rfl
  · rfl

/-- Helper: a hit in the left part of an association list survives
appending. -/
theorem alookup_append_some {β : Type} {l1 : List (String × β)} {k : String}
    {v : β} (l2 : List (String × β)) (h : alookup l1 k = some v) :
    alookup (l1 ++ l2) k = some v := by
  induction l1 with
  | nil => exact absurd h (by simp [alookup])
  | cons hd t ih =>
    obtain ⟨k1, v1⟩ := hd
    simp only [List.cons_append, alookup] at h ⊢
    by_cases hk : k1 = k
    · simpa [hk] using h
    · simp only [hk, if_false] at h ⊢
      exact ih h

/-- Helper: a miss in the left part of an association list defers to the
right part. -/
theorem alookup_append_none {β : Type} {l1 : List (String × β)} {k : String}
    (l2 : List (String × β)) (h : alookup l1 k = none) :
    alookup (l1 ++ l2) k = alookup l2 k := by
  induction l1 with
  | nil => rfl
  | cons hd t ih =>
    obtain ⟨k1, v1⟩ := hd
    simp only [List.cons_append, alookup] at h ⊢
    by_cases hk : k1 = k
    · simp [hk] at h
    · simp only [hk, if_false] at h ⊢
      exact ih h

/-- LocalAgentState from src/p2p/local_state.py: `_sets` maps a state key to
the set of processed members, `_locks` maps a lock key to the owning
instance id. -/
structure AgentStateModel where
  sets : List (String × List String)
  locks : List (String × String)
deriving DecidableEq

/-- The `"lock:" + key` prefixing inside try_acquire. -/
def lockKey (key : String) : String := "lock:" ++ key

/-- LocalAgentState.is_processed (src/p2p/local_state.py lines 20-22). -/
def isProcessed (st : AgentStateModel) (key member : String) : Bool :=
  ((alookup st.sets key).getD []).contains member

/-- LocalAgentState.mark_processed (src/p2p/local_state.py lines 24-26):
`setdefault(key, set()).add(member)`. -/
def markProcessed (st : AgentStateModel) (key member : String) :
    AgentStateModel :=
  let l := (alookup st.sets key).getD []
  { st with sets := aset st.sets key (if l.contains member then l else l ++ [member]) }

/-- LocalAgentState.try_acquire (src/p2p/local_state.py lines 28-37): the
first caller for a lock key records its instance id and gets true; later
callers get true exactly when they pass the recorded instance id. The `ttl`
argument is accepted (for Redis interface compatibility) but never used. -/
def tryAcquire (st : AgentStateModel) (key instanceId : String) (ttl : Nat) :
    Bool × AgentStateModel :=
  match alookup st.locks (lockKey key) with
  | none => (true, { st with locks := st.locks ++ [(lockKey key, instanceId)] })
  | some owner => (decide (owner = instanceId), st)

/-- LocalAgentState.close (src/p2p/local_state.py lines 39-40): a no-op. -/
def closeState (st : AgentStateModel) : AgentStateModel := st

/-- The operations LocalAgentState exposes. -/
inductive AgentOp
  | isProcessedOp (key member : String)
  | markProcessedOp (key member : String)
  | tryAcquireOp (key instanceId : String) (ttl : Nat)
  | closeOp

/-- State transition of one LocalAgentState operation. -/
def applyOp (st : AgentStateModel) : AgentOp → AgentStateModel
  | AgentOp.isProcessedOp _ _ => st
  | AgentOp.markProcessedOp k m => markProcessed st k m
  | AgentOp.tryAcquireOp k i t => (tryAcquire st k i t).2
  | AgentOp.closeOp => closeState st

/-- State after a sequence of LocalAgentState operations. -/
def applyOps (st : AgentStateModel) (ops : List AgentOp) : AgentStateModel :=
  ops.foldl applyOp st

/-- Helper: no LocalAgentState operation ever removes or rewrites a
recorded lock owner. -/
theorem applyOp_preserves_lock {st : AgentStateModel} {lk i : String}
    (h : alookup st.locks lk = some i) (op : AgentOp) :
    alookup (applyOp st op).locks lk = some i := by
  cases op with
  | isProcessedOp k m => exact h
  | markProcessedOp k m => exact h
  | tryAcquireOp k j t =>
    show alookup ((tryAcquire st k j t).2).locks lk = some i
    unfold tryAcquire
    split
    · exact alookup_append_some _ h
    · exact h
  | closeOp => exact h

/-- Helper: lock owners persist across any operation sequence. -/
theorem applyOps_preserves_lock {st : AgentStateModel} {lk i : String}
    (h : alookup st.locks lk = some i) (ops : List AgentOp) :
    alookup (applyOps st ops).locks lk = some i := by
  induction ops generalizing st with
  | nil => exact h
  | cons op rest ih => exact ih (applyOp_preserves_lock h op)

/-- C10. try_acquire implements a permanent, re-entrant, node-local lock
that ignores its ttl argument: the first call for a key records the caller
and returns true; after any sequence of further LocalAgentState operations
the owner is unchanged, and try_acquire for that key returns true exactly
when the same instance id is passed, for every ttl value. -/
theorem try_acquire_permanent_reentrant :
    (∀ (st : AgentStateModel) (key inst : String) (ttl : Nat),
      alookup st.locks (lockKey key) = none →
        (tryAcquire st key inst ttl).1 = true ∧
        alookup ((tryAcquire st key inst ttl).2).locks (lockKey key) = some inst)
    ∧ (∀ (st : AgentStateModel) (key i : String) (ops : List AgentOp)
        (j : String) (ttl : Nat),
      alookup st.locks (lockKey key) = some i →
        alookup (applyOps st ops).locks (lockKey key) = some i ∧
        (tryAcquire (applyOps st ops) key j ttl).1 = decide (i = j)) := by
  constructor
  · intro st key inst ttl h
    unfold tryAcquire
    rw [h]
    refine ⟨rfl, ?_⟩
    show alookup (st.locks ++ [(lockKey key, inst)]) (lockKey key) = some inst
    rw [alookup_append_none _ h]
    simp [alookup]
  · intro st key i ops j ttl h
    have hp := applyOps_preserves_lock h ops
    refine ⟨hp, ?_⟩
    unfold tryAcquire
    rw [hp]

/-- Empty LocalAgentState. -/
def agentState0 : AgentStateModel := { sets := [], locks := [] }

/-- State after the inference agent's first lock acquisition. -/
def agentState1 : AgentStateModel :=
  (tryAcquire agentState0 "inference:obs-1" "inference_agent" 300).2

/-- A concrete mix of later LocalAgentState operations: bookkeeping, a
competing acquire by another instance with a different ttl, and close. -/
def agentOps1 : List AgentOp :=
  [ AgentOp.markProcessedOp "agent:inference:processed_obs" "obs-1"
  , AgentOp.tryAcquireOp "inference:obs-1" "other_agent" 600
  , AgentOp.closeOp ]

/-- Witness: the lock theorem applied at a concrete state, key and
operation sequence. -/
theorem try_acquire_permanent_reentrant_witness :
    ((tryAcquire agentState0 "inference:obs-1" "inference_agent" 300).1 = true ∧
      alookup ((tryAcquire agentState0 "inference:obs-1" "inference_agent" 300).2).locks
        (lockKey "inference:obs-1") = some "inference_agent") ∧
    (alookup (applyOps agentState1 agentOps1).locks (lockKey "inference:obs-1") =
        some "inference_agent" ∧
      (tryAcquire (applyOps agentState1 agentOps1) "inference:obs-1" "other_agent" 0).1 =
        decide ("inference_agent" = "other_agent")) :=
  ⟨try_acquire_permanent_reentrant.1 agentState0 "inference:obs-1" "inference_agent" 300
      (by decide),
   try_acquire_permanent_reentrant.2 agentState1 "inference:obs-1" "inference_agent"
      agentOps1 "other_agent" 0 (by decide)⟩

/-- The on-disk schema state managed by SchemaStore (src/schema/store.py
`_data`). Property and group values are modelled opaquely as strings; the
update logic only merges dictionaries and never inspects them. -/
structure SchemaData where
  schema_version : Nat
  updated_at : String
  updated_by : String
  defaults : List (String × String)
  predicates : List (String × List (String × String))
  exclusivity_groups : List (String × List (String × String))
deriving DecidableEq

/-- The `changes` argument of SchemaStore.update: each component optional. -/
structure SchemaChanges where
  predicates : Option (List (String × List (String × String)))
  exclusivity_groups : Option (List (String × List (String × String)))
  defaults : Option (List (String × String))

/-- Python `dict.update`: set every key of the new dict into the old one. -/
def dictUpdate (d new : List (String × String)) : List (String × String) :=
  new.foldl (fun acc kv => aset acc kv.1 kv.2) d

/-- SchemaStore.update (src/schema/store.py lines 81-129): merge predicates
field-by-field under the canonicalised (strip + lowercase) name, replace
exclusivity groups and defaults wholesale, then bump schema_version and
stamp updated_at / updated_by. -/
def schemaUpdate (data : SchemaData) (changes : SchemaChanges)
    (source now : String) : SchemaData :=
  let data1 :=
    match changes.predicates with
    | none => data
    | some preds =>
      { data with predicates :=
          (preds.foldl
            (fun (acc : List (String × List (String × String)))
                (nameProps : String × List (String × String)) =>
              let canonical := pyLower (pyStrip nameProps.1)
              match alookup acc canonical with
              | some existing => aset acc canonical (dictUpdate existing nameProps.2)
              | none => aset acc canonical nameProps.2) data.predicates) }
  let data2 :=
    match changes.exclusivity_groups with
    | none => data1
    | some groups =>
      { data1 with exclusivity_groups :=
          (groups.foldl
            (fun (acc : List (String × List (String × String)))
                (g : String × List (String × String)) =>
              aset acc g.1 g.2) data1.exclusivity_groups) }
  let data3 :=
    match changes.defaults with
    | none => data2
    | some d => { data2 with defaults := d }
  { data3 with
      schema_version := data3.schema_version + 1,
      updated_at := now,
      updated_by := source }

/-- Filesystem effects a SchemaStore persist can perform. -/
inductive FsOp
  | mkdirParent (path : String)
  | writeFile (path : String) (content : SchemaData)
  | renameFile (src dst : String)
deriving DecidableEq

/-- Whether a filesystem operation is a rename. -/
def FsOp.isRename : FsOp → Bool
  | FsOp.renameFile _ _ => true
  | _ => false

/-- SchemaStore._persist (src/schema/store.py lines 160-164): create the
parent directory, then open the schema path itself for writing and dump the
YAML into it — a direct in-place write. -/
def persistOps (path : String) (data : SchemaData) : List FsOp :=
  [FsOp.mkdirParent path, FsOp.writeFile path data]

/-- Filesystem effects of SchemaStore.update: merge the changes, then
persist. -/
def updateOps (path : String) (data : SchemaData) (changes : SchemaChanges)
    (source now : String) : List FsOp :=
  persistOps path (schemaUpdate data changes source now)

/-- C7. SchemaStore.update persists by writing the serialised state
directly to the final schema path: its filesystem trace is a mkdir of the
parent followed by a single write to the schema file itself, and contains
no rename (hence no write-temp-then-rename step, so a crash mid-write can
leave a partially written file). -/
theorem schema_persist_writes_in_place :
    ∀ (path : String) (data : SchemaData) (changes : SchemaChanges)
      (source now : String),
      (updateOps path data changes source now).filter FsOp.isRename = [] ∧
      updateOps path data changes source now =
        [FsOp.mkdirParent path,
         FsOp.writeFile path (schemaUpdate data changes source now)] := by
  intro path data changes source now
  exact ⟨rfl, rfl⟩

/-- Modelled from the spec: PeerNode.apply_url_overrides is missing from
src/src/p2p/node.py — only its caller (src/p2p/gossip.py line 90) and the
repository's tests reference it. Spec section 4.1: each node keeps an
auxiliary map node_id → (http_url, stream_url) seeded at bootstrap, and
after every update the override for a node id is re-applied to the stored
PeerState.info so gossip does not clobber local reachability. -/
def applyUrlOverrides (overrides : List (String × String × String))
    (ps : PeerState) : PeerState :=
  match alookup overrides ps.info.node_id with
  | none => ps
  | some urls =>
    { ps with info := { ps.info with http_url := urls.1, ws_url := urls.2 } }

/-- GossipProtocol.handle_gossip (src/p2p/gossip.py lines 80-96): for each
advertised PeerState, skip our own id; otherwise overwrite last_seen with
the local receive time, re-apply URL overrides, and call
routing.update_peer. Returns the updated routing table together with the
trace of PeerStates passed to update_peer, in order. -/
def handleGossip (selfId : String) (now : Rat)
    (overrides : List (String × String × String)) :
    RoutingTable → List PeerState → RoutingTable × List PeerState
  | rt, [] => (rt, [])
  | rt, ps :: rest =>
    if ps.info.node_id = selfId then handleGossip selfId now overrides rt rest
    else
      let ps1 := applyUrlOverrides overrides { ps with last_seen := now }
      let rt1 := (updatePeer rt ps1).1
      let res := handleGossip selfId now overrides rt1 rest
      (res.1, ps1 :: res.2)

/-- C1. On receipt of gossip, every advertised PeerState other than the
node's own is handed to routing.update_peer exactly once, after its
last_seen is overwritten with the local receive time and URL overrides are
re-applied; the final routing table is the fold of update_peer over exactly
those transformed states. The processing is total: it completes for every
advertised state. -/
theorem handle_gossip_processes_each_nonself_state :
    ∀ (selfId : String) (now : Rat)
      (overrides : List (String × String × String))
      (rt : RoutingTable) (states : List PeerState),
      (handleGossip selfId now overrides rt states).2 =
        (states.filter (fun ps => decide (ps.info.node_id ≠ selfId))).map
          (fun ps => applyUrlOverrides overrides { ps with last_seen := now })
      ∧ (handleGossip selfId now overrides rt states).1 =
        ((states.filter (fun ps => decide (ps.info.node_id ≠ selfId))).map
          (fun ps => applyUrlOverrides overrides { ps with last_seen := now })).foldl
            (fun r ps => (updatePeer r ps).1) rt := by
  intro selfId now overrides rt states
  induction states generalizing rt with
  | nil => exact ⟨rfl, rfl⟩
  | cons ps rest ih =>
    by_cases hid : ps.info.node_id = selfId
    · have hf : (decide (ps.info.node_id ≠ selfId)) = false := by simp [hid]
      simp only [handleGossip, if_pos hid, List.filter_cons, hf, Bool.false_eq_true,
        if_false]
      exact ih rt
    · have hf : (decide (ps.info.node_id ≠ selfId)) = true := by simp [hid]
      simp only [handleGossip, if_neg hid, List.filter_cons, hf, if_true,
        List.map_cons, List.foldl_cons]
      obtain ⟨ih1, ih2⟩ :=
        ih ((updatePeer rt (applyUrlOverrides overrides { ps with last_seen := now })).1)
      exact ⟨by rw [ih1], by rw [ih2]⟩

/-- SEEN_MSG_MAX from src/p2p/node.py line 25. -/
def SEEN_MSG_MAX : Nat := 10000

/-- The dedup gate at the top of PeerNode.handle_envelope (src/p2p/node.py
lines 246-253): an envelope whose msg_id is already in seen_msgs is dropped;
otherwise the id is recorded and, when the set's size now exceeds
SEEN_MSG_MAX, the oldest half is evicted. Returns whether the envelope
proceeds to the handler lookup, together with the new seen set in FIFO
order (oldest first). -/
def handleDedup (seen : List String) (msgId : String) : Bool × List String :=
  if msgId ∈ seen then (false, seen)
  else
    let inserted := seen ++ [msgId]
    if SEEN_MSG_MAX < inserted.length then
      (true, inserted.drop (SEEN_MSG_MAX / 2))
    else
      (true, inserted)

/-- handle_envelope's dedup gate run over a whole inbound sequence: returns
the msg_ids dispatched to handlers (with multiplicity, in arrival order)
and the final seen set. -/
def dispatchRun : List String → List String → List String × List String
  | [], seen => ([], seen)
  | m :: rest, seen =>
    let step := handleDedup seen m
    let res := dispatchRun rest step.2
    (if step.1 then m :: res.1 else res.1, res.2)

/-- Helper: dispatchRun distributes over appending of the inbound
sequence. -/
theorem dispatchRun_append :
    ∀ (xs ys seen : List String),
      dispatchRun (xs ++ ys) seen =
        ((dispatchRun xs seen).1 ++ (dispatchRun ys (dispatchRun xs seen).2).1,
         (dispatchRun ys (dispatchRun xs seen).2).2) := by
  intro xs
  induction xs with
  | nil => intro ys seen; rfl
  | cons m rest ih =>
    intro ys seen
    have hcons : (m :: rest) ++ ys = m :: (rest ++ ys) := rfl
    rw [hcons]
    simp only [dispatchRun]
    simp only [ih]
    cases hb : (handleDedup seen m).1 <;> simp [hb]

/-- Helper: while the seen set cannot overflow (the whole workload has at
most SEEN_MSG_MAX distinct ids, bounded through the finite id universe S),
every dispatched id is fresh and no id is dispatched twice. -/
theorem dispatchRun_nodup_aux (S : Finset String) :
    ∀ (msgs seen : List String), seen.Nodup →
      (∀ x ∈ seen, x ∈ S) → (∀ x ∈ msgs, x ∈ S) → S.card ≤ SEEN_MSG_MAX →
      (dispatchRun msgs seen).1.Nodup ∧
      (∀ x ∈ (dispatchRun msgs seen).1, x ∉ seen) := by
  intro msgs
  induction msgs with
  | nil =>
    intro seen _ _ _ _
    exact ⟨List.nodup_nil, by intro x hx; cases hx⟩
  | cons m rest ih =>
    intro seen hnd hseenS hmsgS hcard
    by_cases hm : m ∈ seen
    · have hstep : handleDedup seen m = (false, seen) := by
        simp [handleDedup, hm]
      have hrun : dispatchRun (m :: rest) seen = dispatchRun rest seen := by
        simp [dispatchRun, hstep]
      rw [hrun]
      exact ih seen hnd hseenS (fun x hx => hmsgS x (List.mem_cons_of_mem _ hx)) hcard
    · have hmS : m ∈ S := hmsgS m (List.mem_cons_self _ _)
      have hnd1 : (seen ++ [m]).Nodup := by
        simp [List.nodup_append, hnd, hm]
      have hsubS : ∀ x ∈ seen ++ [m], x ∈ S := by
        intro x hx
        rcases List.mem_append.mp hx with h | h
        · exact hseenS x h
        · have hxm : x = m := by simpa using h
          exact hxm ▸ hmS
      have hlen : (seen ++ [m]).length ≤ S.card := by
        have hfin : (seen ++ [m]).toFinset ⊆ S := by
          intro x hx
          exact hsubS x (List.mem_toFinset.mp hx)
        calc (seen ++ [m]).length = (seen ++ [m]).toFinset.card :=
              (List.toFinset_card_of_nodup hnd1).symm
          _ ≤ S.card := Finset.card_le_card hfin
      have hnoev : ¬ (SEEN_MSG_MAX < (seen ++ [m]).length) :=
        Nat.not_lt.mpr (le_trans hlen hcard)
      have hnoev1 : ¬ (SEEN_MSG_MAX < seen.length + 1) := by
        simpa using hnoev
      have hstep : handleDedup seen m = (true, seen ++ [m]) := by
        simp [handleDedup, hm, hnoev1]
      have hrun : dispatchRun (m :: rest) seen =
          (m :: (dispatchRun rest (seen ++ [m])).1,
           (dispatchRun rest (seen ++ [m])).2) := by
        simp [dispatchRun, hstep]
      obtain ⟨ihnd, ihfresh⟩ :=
        ih (seen ++ [m]) hnd1 hsubS
          (fun x hx => hmsgS x (List.mem_cons_of_mem _ hx)) hcard
      rw [hrun]
      constructor
      · refine List.nodup_cons.mpr ⟨?_, ihnd⟩
        intro hmem
        exact (ihfresh m hmem) (by simp)
      · intro x hx
        rcases List.mem_cons.mp hx with rfl | hx2
        · exact hm
        · intro hxseen
          exact (ihfresh x hx2) (List.mem_append_left _ hxseen)

/-- C9 (amended). The dedup gate delivers each msg_id at most once as long
as the workload holds at most SEEN_MSG_MAX distinct ids — then the seen set
never overflows, so no eviction occurs and no id is ever dispatched to a
handler twice. (Beyond that bound, eviction of the oldest half can
re-admit an evicted id; see the counterexample.) -/
theorem dispatch_nodup_within_capacity :
    ∀ msgs : List String, msgs.toFinset.card ≤ SEEN_MSG_MAX →
      (dispatchRun msgs []).1.Nodup := by
  intro msgs h
  exact (dispatchRun_nodup_aux msgs.toFinset msgs [] List.nodup_nil
    (by intro x hx; cases hx)
    (fun x hx => List.mem_toFinset.mpr hx) h).1

/-- Witness: the amended dedup theorem applied to a concrete inbound
sequence containing a duplicate. -/
theorem dispatch_nodup_within_capacity_witness :
    (["a", "b", "a"] : List String).toFinset.card ≤ SEEN_MSG_MAX ∧
    (dispatchRun ["a", "b", "a"] []).1.Nodup :=
  ⟨by decide, dispatch_nodup_within_capacity ["a", "b", "a"] (by decide)⟩

/-- Distinct msg_ids for the counterexample: the string of n letters a. -/
def uid (n : Nat) : String := String.mk (List.replicate n 'a')

/-- Helper: uid is injective. -/
theorem uid_inj {m n : Nat} (h : uid m = uid n) : m = n := by
  have h2 : List.replicate m 'a' = List.replicate n 'a' := congrArg String.data h
  have h3 := congrArg List.length h2
  simpa using h3

/-- Helper: membership of a uid in a mapped range. -/
theorem uid_mem_map_range' {a s n : Nat} :
    uid a ∈ (List.range' s n).map uid ↔ (s ≤ a ∧ a < s + n) := by
  constructor
  · intro h
    obtain ⟨j, hj, he⟩ := List.mem_map.mp h
    obtain rfl := uid_inj he
    exact List.mem_range'_1.mp hj
  · intro h
    exact List.mem_map.mpr ⟨a, List.mem_range'_1.mpr h, rfl⟩

/-- Helper: appending the next fresh uid extends a mapped range. -/
theorem uid_range_concat (k : Nat) :
    (List.range' 1 k).map uid ++ [uid (k + 1)] =
      (List.range' 1 (k + 1)).map uid := by
  rw [List.range'_1_concat, List.map_append, Nat.add_comm 1 k]
  simp

/-- Helper: running a block of consecutive fresh ids over a seen set that
is an initial range extends the range, with no eviction, dispatching every
id, as long as the total stays within SEEN_MSG_MAX. -/
theorem dispatchRun_fresh_run :
    ∀ (m k : Nat), 0 < k → k + m ≤ SEEN_MSG_MAX →
      dispatchRun ((List.range' (k + 1) m).map uid) ((List.range' 1 k).map uid) =
        ((List.range' (k + 1) m).map uid, (List.range' 1 (k + m)).map uid) := by
  intro m
  induction m with
  | zero =>
    intro k _ _
    simp [dispatchRun]
  | succ m ih =>
    intro k hk hbound
    have hmax : SEEN_MSG_MAX = 10000 := rfl
    have hr : List.range' (k + 1) (m + 1) = (k + 1) :: List.range' (k + 1 + 1) m :=
      List.range'_succ _ _ _
    have hfresh : uid (k + 1) ∉ (List.range' 1 k).map uid := by
      intro hmem
      have := uid_mem_map_range'.mp hmem
      omega
    have hlen1 : ¬ (SEEN_MSG_MAX < ((List.range' 1 (k + 1)).map uid).length) := by
      simp only [List.length_map, List.length_range']
      omega
    have hstep : handleDedup ((List.range' 1 k).map uid) (uid (k + 1)) =
        (true, (List.range' 1 (k + 1)).map uid) := by
      simp only [handleDedup, if_neg hfresh, uid_range_concat, if_neg hlen1]
    rw [hr, List.map_cons]
    have hrun : dispatchRun (uid (k + 1) :: (List.range' (k + 1 + 1) m).map uid)
        ((List.range' 1 k).map uid) =
        (uid (k + 1) ::
          (dispatchRun ((List.range' (k + 1 + 1) m).map uid)
            ((List.range' 1 (k + 1)).map uid)).1,
         (dispatchRun ((List.range' (k + 1 + 1) m).map uid)
            ((List.range' 1 (k + 1)).map uid)).2) := by
      simp [dispatchRun, hstep]
    rw [hrun]
    have ihk := ih (k + 1) (by omega) (by omega)
    have harith : k + 1 + m = k + (m + 1) := by omega
    rw [harith] at ihk
    rw [ihk]

/-- The concrete inbound sequence that overflows the seen set: one target
id, then ten thousand further distinct ids, then the target id again. -/
def overflowSeq : List String :=
  [uid 1] ++ ((List.range' 2 9999).map uid ++ ([uid 10001] ++ [uid 1]))

/-- C9 counterexample: in the concrete sequence `overflowSeq`, the envelope
id `uid 1` passes the dedup gate and is dispatched to a handler twice: its
ten-thousand-and-first successor triggers eviction of the oldest half of
seen_msgs, which forgets `uid 1`, so its second arrival is dispatched
again. -/
theorem seen_msgs_eviction_redispatch_cex :
    ((dispatchRun overflowSeq []).1).count (uid 1) = 2 := by
  have hmax : SEEN_MSG_MAX = 10000 := rfl
  -- first envelope: fresh, dispatched, seen = [uid 1]
  have h1 : dispatchRun [uid 1] [] = ([uid 1], [uid 1]) := by
    simp [dispatchRun, handleDedup, SEEN_MSG_MAX]
  -- the next 9999 fresh ids: no eviction, seen grows to range' 1 10000
  have h2 := dispatchRun_fresh_run 9999 1 (by omega) (by omega)
  norm_num at h2
  -- the 10001st id triggers eviction of the oldest 5000 entries
  have hfr3 : uid 10001 ∉ (List.range' 1 10000).map uid := by
    intro hmem
    have := uid_mem_map_range'.mp hmem
    omega
  have hconc3 : (List.range' 1 10000).map uid ++ [uid 10001] =
      (List.range' 1 10001).map uid := uid_range_concat 10000
  have hlen3 : SEEN_MSG_MAX < ((List.range' 1 10001).map uid).length := by
    simp only [List.length_map, List.length_range']
    omega
  have hsplit : List.range' 1 10001 = List.range' 1 5000 ++ List.range' 5001 5001 := by
    have h := List.range'_append_1 1 5000 5001
    norm_num at h
    exact h.symm
  have hdrop : ((List.range' 1 10001).map uid).drop (SEEN_MSG_MAX / 2) =
      (List.range' 5001 5001).map uid := by
    have hhalf : SEEN_MSG_MAX / 2 = 5000 := rfl
    rw [hhalf, hsplit, List.map_append]
    exact List.drop_left' (by simp)
  have hstep3 : handleDedup ((List.range' 1 10000).map uid) (uid 10001) =
      (true, (List.range' 5001 5001).map uid) := by
    simp only [handleDedup, if_neg hfr3, hconc3, if_pos hlen3, hdrop]
  have h3 : dispatchRun [uid 10001] ((List.range' 1 10000).map uid) =
      ([uid 10001], (List.range' 5001 5001).map uid) := by
    simp [dispatchRun, hstep3]
  -- the target id was evicted, so its second arrival is dispatched again
  have hfr4 : uid 1 ∉ (List.range' 5001 5001).map uid := by
    intro hmem
    have := uid_mem_map_range'.mp hmem
    omega
  have h4 : dispatchRun [uid 1] ((List.range' 5001 5001).map uid) =
      ([uid 1], (List.range' 5001 5001).map uid ++ [uid 1]) := by
    simp [dispatchRun, handleDedup, hfr4, SEEN_MSG_MAX]
  -- assemble the full dispatched list
  have hD : (dispatchRun overflowSeq []).1 =
      [uid 1] ++ ((List.range' 2 9999).map uid ++ ([uid 10001] ++ [uid 1])) := by
    show (dispatchRun ([uid 1] ++ ((List.range' 2 9999).map uid ++
        ([uid 10001] ++ [uid 1]))) []).1 = _
    simp only [dispatchRun_append, h1, h2, h3, h4]
  rw [hD]
  have c2 : ((List.range' 2 9999).map uid).count (uid 1) = 0 := by
    refine List.count_eq_zero.mpr ?_
    intro hmem
    have := uid_mem_map_range'.mp hmem
    omega
  have hne : uid 1 ≠ uid 10001 := by
    intro h
    have := uid_inj h
    omega
  simp [List.count_append, c2, List.count_cons_of_ne hne]

/-- PredicateInfo from src/schema/loader.py lines 12-22. -/
structure PredicateInfo where
  name : String
  cardinality : String
  temporality : String
  aliases : List String := []
  origin : String := "bootstrap"
  reasoning : Option String := none
  last_reviewed : Option String := none
deriving DecidableEq

/-- ExclusivityGroup from src/schema/loader.py lines 25-33. -/
structure ExclusivityGroup where
  name : String
  predicates : List String
  description : String := ""
  origin : String := "bootstrap"
  reasoning : Option String := none
deriving DecidableEq

/-- PredicateSchema from src/schema/loader.py lines 36-55. -/
structure PredicateSchema where
  predicates : List (String × PredicateInfo)
  alias_map : List (String × String)
  exclusivity_groups : List ExclusivityGroup
  default_cardinality : String := "single"
  default_temporality : String := "unknown"
deriving DecidableEq

/-- PredicateSchema.normalize_predicate (src/schema/loader.py lines 57-60):
strip, lowercase, spaces to underscores, then resolve aliases. -/
def normalizePredicate (schema : PredicateSchema) (predicate : String) : String :=
  let normalized := pyReplaceChar ' ' '_' (pyLower (pyStrip predicate))
  (alookup schema.alias_map normalized).getD normalized

/-- PredicateSchema.get_info (src/schema/loader.py lines 62-65). -/
def getInfo (schema : PredicateSchema) (predicate : String) :
    Option PredicateInfo :=
  alookup schema.predicates (normalizePredicate schema predicate)

/-- PredicateSchema.is_multi_valued (src/schema/loader.py lines 67-72). -/
def isMultiValued (schema : PredicateSchema) (predicate : String) : Bool :=
  match getInfo schema predicate with
  | none => decide (schema.default_cardinality = "multi")
  | some info => decide (info.cardinality = "multi")

/-- PredicateSchema.get_exclusivity_group (src/schema/loader.py lines
78-84): first group whose predicate set contains the canonical name. -/
def getExclusivityGroup (schema : PredicateSchema) (predicate : String) :
    Option ExclusivityGroup :=
  let canonical := normalizePredicate schema predicate
  schema.exclusivity_groups.find? (fun g => g.predicates.contains canonical)

/-- A statement row as the validator consumes it (the fields
get_recent_statements returns and ValidatorAgent reads). -/
structure Stmt where
  id : String
  subject_name : String
  predicate : String
  object_name : String
deriving DecidableEq

/-- One flag_contradiction call: (first id, second id, reason). -/
abbrev Flag : Type := String × String × String

/-- The canonical pair key `":".join(sorted([id1, id2]))` from
src/agents/validator.py line 120. -/
def pairKey (id1 id2 : String) : String :=
  if pyStrLt id2 id1 then id2 ++ ":" ++ id1 else id1 ++ ":" ++ id2

/-- Python dict-based grouping with setdefault(key, []).append(s):
insertion order of first appearance for keys, arrival order within a
group. -/
def groupByKey (f : Stmt → String) (stmts : List Stmt) :
    List (String × List Stmt) :=
  stmts.foldl (fun acc s =>
    match alookup acc (f s) with
    | none => acc ++ [(f s, [s])]
    | some l => aset acc (f s) (l ++ [s])) []

/-- Inner loop of _check_same_predicate (src/agents/validator.py lines
113-143): compare one statement against every later one; skip equal
objects and already-checked pairs, otherwise flag and mark the pair. -/
def flagAgainst (subject predicate : String) (s1 : Stmt) :
    List Stmt → List String → List Flag × List String
  | [], checked => ([], checked)
  | s2 :: rest, checked =>
    if s1.object_name = s2.object_name then
      flagAgainst subject predicate s1 rest checked
    else
      let pk := pairKey s1.id s2.id
      if pk ∈ checked then
        flagAgainst subject predicate s1 rest checked
      else
        let reason := subject ++ " " ++ predicate ++ ": " ++ sq ++ s1.object_name
          ++ sq ++ " vs " ++ sq ++ s2.object_name ++ sq
        let res := flagAgainst subject predicate s1 rest (checked ++ [pk])
        ((s1.id, s2.id, reason) :: res.1, res.2)

/-- The unordered-pairs double loop of _check_same_predicate. -/
def flagPairsSamePred (subject predicate : String) :
    List Stmt → List String → List Flag × List String
  | [], checked => ([], checked)
  | s1 :: rest, checked =>
    let first := flagAgainst subject predicate s1 rest checked
    let res := flagPairsSamePred subject predicate rest first.2
    (first.1 ++ res.1, res.2)

/-- _check_same_predicate (src/agents/validator.py lines 88-145): group one
subject's statements by predicate; skip groups of fewer than two and, when
a schema is loaded, multi-valued predicates; flag the remaining pairs. -/
def checkSamePredicate (schema : Option PredicateSchema) (subject : String)
    (stmts : List Stmt) (checked : List String) : List Flag × List String :=
  (groupByKey (fun s => s.predicate) stmts).foldl
    (fun acc group =>
      if group.2.length < 2 then acc
      else if (match schema with
               | some sch => isMultiValued sch group.1
               | none => false) then acc
      else
        let res := flagPairsSamePred subject group.1 group.2 acc.2
        (acc.1 ++ res.1, res.2))
    ([], checked)

/-- Grouping step of _check_exclusivity_groups (src/agents/validator.py
lines 153-159): statements whose predicate is in no group are dropped. -/
def groupByExclusivity (sch : PredicateSchema) (stmts : List Stmt) :
    List (String × List Stmt) :=
  stmts.foldl (fun acc s =>
    match getExclusivityGroup sch s.predicate with
    | none => acc
    | some g =>
      match alookup acc g.name with
      | none => acc ++ [(g.name, [s])]
      | some l => aset acc g.name (l ++ [s])) []

/-- Inner loop of _check_exclusivity_groups (src/agents/validator.py lines
166-190): every unordered pair in a group is flagged (no object
comparison), with the same checked-pair dedup. -/
def flagAgainstExcl (groupName : String) (s1 : Stmt) :
    List Stmt → List String → List Flag × List String
  | [], checked => ([], checked)
  | s2 :: rest, checked =>
    let pk := pairKey s1.id s2.id
    if pk ∈ checked then
      flagAgainstExcl groupName s1 rest checked
    else
      let reason := "Exclusivity group " ++ sq ++ groupName ++ sq ++ ": "
        ++ s1.predicate ++ " vs " ++ s2.predicate
      let res := flagAgainstExcl groupName s1 rest (checked ++ [pk])
      ((s1.id, s2.id, reason) :: res.1, res.2)

/-- The unordered-pairs double loop of _check_exclusivity_groups. -/
def flagPairsExcl (groupName : String) :
    List Stmt → List String → List Flag × List String
  | [], checked => ([], checked)
  | s1 :: rest, checked =>
    let first := flagAgainstExcl groupName s1 rest checked
    let res := flagPairsExcl groupName rest first.2
    (first.1 ++ res.1, res.2)

/-- _check_exclusivity_groups (src/agents/validator.py lines 147-192). -/
def checkExclusivityGroups (sch : PredicateSchema) (stmts : List Stmt)
    (checked : List String) : List Flag × List String :=
  (groupByExclusivity sch stmts).foldl
    (fun acc group =>
      if group.2.length < 2 then acc
      else
        let res := flagPairsExcl group.1 group.2 acc.2
        (acc.1 ++ res.1, res.2))
    ([], checked)

/-- ValidatorAgent.process (src/agents/validator.py lines 48-86): group the
fetched statements by subject; per subject run the same-predicate check
and, when a schema is loaded, the exclusivity check. Returns the trace of
flag_contradiction calls and the final checked-pairs state. -/
def validatorProcess (schema : Option PredicateSchema) (statements : List Stmt)
    (checked : List String) : List Flag × List String :=
  (groupByKey (fun s => s.subject_name) statements).foldl
    (fun acc subjGroup =>
      let res1 := checkSamePredicate schema subjGroup.1 subjGroup.2 acc.2
      match schema with
      | some sch =>
        let res2 := checkExclusivityGroups sch subjGroup.2 res1.2
        (acc.1 ++ res1.1 ++ res2.1, res2.2)
      | none => (acc.1 ++ res1.1, res1.2))
    ([], checked)

/-- A schema that declares predicate p multi-valued and also places it in
exclusivity group g. -/
def multiExclSchema : PredicateSchema :=
  { predicates := [("p",
      { name := "p", cardinality := "multi", temporality := "unknown" })]
  , alias_map := []
  , exclusivity_groups := [{ name := "g", predicates := ["p"] }] }

/-- Same-subject statement with object x. -/
def stmtX : Stmt :=
  { id := "s1", subject_name := "alice", predicate := "p", object_name := "x" }

/-- Same-subject statement with object y. -/
def stmtY : Stmt :=
  { id := "s2", subject_name := "alice", predicate := "p", object_name := "y" }

/-- C8 counterexample: with a schema that declares the shared predicate
multi-valued but lists it in an exclusivity group, the validator still
flags the same-subject pair (through the exclusivity-group check), so
"multi-valued implies never flagged" fails as stated. -/
theorem validator_multi_valued_exclusivity_cex :
    isMultiValued multiExclSchema "p" = true ∧
    (validatorProcess (some multiExclSchema) [stmtX, stmtY] []).1 =
      [("s1", "s2", "Exclusivity group " ++ sq ++ "g" ++ sq ++ ": p vs p")] := by
  exact ⟨rfl, rfl⟩

/-- C8 (amended). For two same-subject same-predicate statements with
distinct objects presented in one process tick: when a schema is loaded
that declares the predicate multi-valued AND the predicate belongs to no
exclusivity group, the validator flags nothing; with no schema loaded it
flags exactly the pair with the documented reason string. -/
theorem validator_schema_decides_flagging :
    ∀ (s1 s2 : Stmt) (sch : PredicateSchema),
      s1.subject_name = s2.subject_name →
      s1.predicate = s2.predicate →
      s1.object_name ≠ s2.object_name →
      ((isMultiValued sch s1.predicate = true →
          getExclusivityGroup sch s1.predicate = none →
          (validatorProcess (some sch) [s1, s2] []).1 = [])
       ∧ (validatorProcess none [s1, s2] []).1 =
          [(s1.id, s2.id,
            s1.subject_name ++ " " ++ s1.predicate ++ ": " ++ sq ++ s1.object_name
              ++ sq ++ " vs " ++ sq ++ s2.object_name ++ sq)]) := by
  intro s1 s2 sch hsubj hpred hobj
  cases s1 with
  | mk i1 subj1 p1 o1 =>
  cases s2 with
  | mk i2 subj2 p2 o2 =>
  subst hsubj
  subst hpred
  constructor
  · intro hmulti hgroup
    simp [validatorProcess, groupByKey, checkSamePredicate, checkExclusivityGroups,
      groupByExclusivity, alookup, aset, hmulti, hgroup]
  · simp [validatorProcess, groupByKey, checkSamePredicate, flagPairsSamePred,
      flagAgainst, alookup, aset, hobj]

/-- A schema where is_hungry is multi-valued and in no exclusivity group. -/
def hungrySchema : PredicateSchema :=
  { predicates := [("is_hungry",
      { name := "is_hungry", cardinality := "multi", temporality := "temporal" })]
  , alias_map := []
  , exclusivity_groups := [] }

/-- First witness statement. -/
def wStmtA : Stmt :=
  { id := "w1", subject_name := "alice", predicate := "is_hungry",
    object_name := "snacks" }

/-- Second witness statement. -/
def wStmtB : Stmt :=
  { id := "w2", subject_name := "alice", predicate := "is_hungry",
    object_name := "fruit" }

/-- Witness: the amended validator theorem at a concrete pair and schema. -/
theorem validator_schema_decides_flagging_witness :
    (validatorProcess (some hungrySchema) [wStmtA, wStmtB] []).1 = [] ∧
    (validatorProcess none [wStmtA, wStmtB] []).1 =
      [("w1", "w2", "alice" ++ " " ++ "is_hungry" ++ ": " ++ sq ++ "snacks"
          ++ sq ++ " vs " ++ sq ++ "fruit" ++ sq)] :=
  ⟨(validator_schema_decides_flagging wStmtA wStmtB hungrySchema rfl rfl
      (by decide)).1 rfl rfl,
   (validator_schema_decides_flagging wStmtA wStmtB hungrySchema rfl rfl
      (by decide)).2⟩

/-- A single extracted relationship (src/llm.py Extraction). -/
structure Extraction where
  subject : String
  predicate : String
  object : String
deriving DecidableEq

/-- Structured LLM output for an observation (src/llm.py ObservationData). -/
structure ObservationData where
  entities : List String
  extractions : List Extraction
  topics : List String
deriving DecidableEq

/-- Store effects MemoryService.observe performs (src/interfaces.py):
node creation with a type tag and properties, entity get-or-create, and
relationship creation. -/
inductive MemOp
  | createNode (id : String) (ntype : String) (props : List (String × String))
  | getOrCreateEntity (name : String) (freshId : String)
  | createRel (fromId : String) (relType : String) (toId : String)
deriving DecidableEq

/-- _normalize_predicate (src/interfaces.py lines 259-261): strip,
uppercase, spaces and hyphens to underscores. -/
def normalizeRelType (predicate : String) : String :=
  pyReplaceChar '-' '_' (pyReplaceChar ' ' '_' (pyUpper (pyStrip predicate)))

/-- Entity-linking loop of observe (src/interfaces.py lines 57-62):
get-or-create each extracted entity and link the observation to it with a
SUBJECT edge. `n` counts consumed fresh uuid4 ids. -/
def observeEntityOps (resolveEntity : String → String → String)
    (gen : Nat → String) (obsId : String) :
    List String → Nat → List MemOp × Nat
  | [], n => ([], n)
  | name :: rest, n =>
    let eid := resolveEntity name (gen n)
    let res := observeEntityOps resolveEntity gen obsId rest (n + 1)
    (MemOp.getOrCreateEntity name (gen n)
      :: MemOp.createRel obsId "SUBJECT" eid :: res.1, res.2)

/-- Claim-creation loop of observe (src/interfaces.py lines 64-86): one
Claim node per extracted triple, with a BASIS edge to the observation, a
SUBJECT edge to the subject entity, and an entity-to-entity edge under the
normalised predicate. -/
def observeClaimOps (resolveEntity : String → String → String)
    (gen : Nat → String) (obsId source now : String) :
    List Extraction → Nat → List MemOp × Nat
  | [], n => ([], n)
  | ext :: rest, n =>
    let claimId := gen n
    let subjId := resolveEntity ext.subject (gen (n + 1))
    let objId := resolveEntity ext.object (gen (n + 2))
    let ops :=
      [ MemOp.createNode claimId "Claim"
          [("source", source), ("timestamp", now),
           ("subject_text", ext.subject), ("predicate_text", ext.predicate),
           ("object_text", ext.object), ("confidence", "1.0")]
      , MemOp.createRel claimId "BASIS" obsId
      , MemOp.getOrCreateEntity ext.subject (gen (n + 1))
      , MemOp.createRel claimId "SUBJECT" subjId
      , MemOp.getOrCreateEntity ext.object (gen (n + 2))
      , MemOp.createRel subjId (normalizeRelType ext.predicate) objId ]
    let res := observeClaimOps resolveEntity gen obsId source now rest (n + 3)
    (ops ++ res.1, res.2)

/-- MemoryService.observe (src/interfaces.py lines 39-88) as a trace of
store operations. `gen` supplies the uuid4 ids in generation order;
`resolveEntity name fresh` is the id get_or_create_entity resolves a name
to when offered a fresh id; the LLM extraction result is an input. Returns
the observation id (the first generated id) and the operation trace. -/
def observeTrace (resolveEntity : String → String → String)
    (gen : Nat → String) (text source now : String)
    (extraction : ObservationData) : String × List MemOp :=
  let obsId := gen 0
  let obsOps :=
    [MemOp.createNode obsId "Observation"
      [("source", source), ("timestamp", now), ("raw_content", text),
       ("topics", String.intercalate "," extraction.topics)]]
  let entRes := observeEntityOps resolveEntity gen obsId extraction.entities 1
  let claimRes :=
    observeClaimOps resolveEntity gen obsId source now extraction.extractions entRes.2
  (obsId, obsOps ++ entRes.1 ++ claimRes.1)

/-- Whether an operation creates a node of type Claim. -/
def MemOp.isClaimNode : MemOp → Bool
  | MemOp.createNode _ t _ => decide (t = "Claim")
  | _ => false

/-- Whether an operation creates a node of type Observation. -/
def MemOp.isObservationNode : MemOp → Bool
  | MemOp.createNode _ t _ => decide (t = "Observation")
  | _ => false

/-- Concrete LLM extraction carrying one relationship triple. -/
def obsDataCex : ObservationData :=
  { entities := ["alice"]
  , extractions := [{ subject := "alice", predicate := "likes", object := "bob" }]
  , topics := [] }

/-- C2 counterexample: on an extraction containing one relationship triple,
observe creates a Claim node as part of the call, contrary to the claim
that no statement/claim nodes are created. -/
theorem observe_creates_claim_nodes_cex :
    ((observeTrace (fun _ fid => fid) (fun n => toString n)
        "alice likes bob" "user" "t0" obsDataCex).2.countP MemOp.isClaimNode) = 1 := by
  decide

/-- Helper: the entity-linking loop creates no Claim or Observation
nodes. -/
theorem observeEntityOps_no_nodes (re : String → String → String)
    (gen : Nat → String) (obsId : String) :
    ∀ (names : List String) (n : Nat),
      ((observeEntityOps re gen obsId names n).1.countP MemOp.isClaimNode = 0) ∧
      ((observeEntityOps re gen obsId names n).1.countP MemOp.isObservationNode = 0) := by
  intro names
  induction names with
  | nil => intro n; exact ⟨rfl, rfl⟩
  | cons name rest ih =>
    intro n
    have h := ih (n + 1)
    simp [observeEntityOps, List.countP_cons, MemOp.isClaimNode,
      MemOp.isObservationNode, h.1, h.2]

/-- Helper: the claim-creation loop creates exactly one Claim node per
extracted triple and no Observation nodes. -/
theorem observeClaimOps_counts (re : String → String → String)
    (gen : Nat → String) (obsId source now : String) :
    ∀ (exts : List Extraction) (n : Nat),
      ((observeClaimOps re gen obsId source now exts n).1.countP
        MemOp.isClaimNode = exts.length) ∧
      ((observeClaimOps re gen obsId source now exts n).1.countP
        MemOp.isObservationNode = 0) := by
  intro exts
  induction exts with
  | nil => intro n; exact ⟨rfl, rfl⟩
  | cons ext rest ih =>
    intro n
    have h := ih (n + 3)
    simp [observeClaimOps, List.countP_append, List.countP_cons,
      MemOp.isClaimNode, MemOp.isObservationNode, h.1, h.2, Nat.add_comm]

/-- C2 (amended). observe creates exactly one Observation node, returns its
id (the first generated id), and additionally creates one Claim node for
every relationship triple in the LLM extraction — so the call does create
claim nodes whenever the extraction carries triples. -/
theorem observe_trace_node_counts :
    ∀ (re : String → String → String) (gen : Nat → String)
      (text source now : String) (ext : ObservationData),
      (observeTrace re gen text source now ext).1 = gen 0 ∧
      ((observeTrace re gen text source now ext).2.countP MemOp.isClaimNode) =
        ext.extractions.length ∧
      ((observeTrace re gen text source now ext).2.countP
        MemOp.isObservationNode) = 1 := by
  intro re gen text source now ext
  refine ⟨rfl, ?_, ?_⟩
  · have hent := observeEntityOps_no_nodes re gen (gen 0) ext.entities 1
    have hclaim := observeClaimOps_counts re gen (gen 0) source now ext.extractions
      (observeEntityOps re gen (gen 0) ext.entities 1).2
    simp [observeTrace, List.countP_append, List.countP_cons, MemOp.isClaimNode,
      hent.1, hclaim.1]
  · have hent := observeEntityOps_no_nodes re gen (gen 0) ext.entities 1
    have hclaim := observeClaimOps_counts re gen (gen 0) source now ext.extractions
      (observeEntityOps re gen (gen 0) ext.entities 1).2
    simp [observeTrace, List.countP_append, List.countP_cons,
      MemOp.isObservationNode, hent.2, hclaim.2]

/-- Store effects of the memory service relevant to flag_contradiction
(TripleStore.create_relationship, src/store.py lines 145-169). -/
inductive StoreOp
  | createRelationship (fromId : String) (relType : String) (toId : String)
    (props : List (String × String))
deriving DecidableEq

/-- Modelled from the spec: MemoryService.flag_contradiction is missing
from src/interfaces.py (the MemoryService there is a pre-migration version
without it); only its callers are in src — ValidatorAgent
(src/agents/validator.py), P2PMemoryClient (src/p2p/memory_client.py) and
the METHOD_CAPABILITIES entry. Spec section 4.11: flag_contradiction(id1,
id2, reason) adds a CONTRADICTS edge carrying the reason as an edge
property. -/
def memoryFlagContradiction (stmtId1 stmtId2 reason : String) : List StoreOp :=
  [StoreOp.createRelationship stmtId1 "CONTRADICTS" stmtId2 [("reason", reason)]]

/-- A node as the flag_contradiction call path sees it: id, capability set,
whether a memory service is registered, and its routing table. -/
structure NodeModel where
  nodeId : String
  capabilities : List Capability
  hasMemory : Bool
  routing : RoutingTable

/-- PeerNode._handle_request for a flag_contradiction RPC (src/p2p/node.py
lines 312-357): reply with an error when the receiving node lacks the
required capabilities or has no memory service registered; otherwise
invoke the service and reply with no error. (flag_contradiction triggers
no event broadcast there — only observe and claim do.) Returns the
response error and the store-operation trace. -/
def handleRequestFlag (selfCaps : List Capability) (hasMemory : Bool)
    (stmtId1 stmtId2 reason : String) : Option String × List StoreOp :=
  if capSubset (methodCapabilities "flag_contradiction") selfCaps then
    if hasMemory then
      (none, memoryFlagContradiction stmtId1 stmtId2 reason)
    else
      (some "No MemoryService registered on this node", [])
  else
    (some "lacks capabilities", [])

/-- P2PMemoryClient.flag_contradiction via _call (src/p2p/memory_client.py
lines 36-43 and 89-149): execute locally when the node's capability set
covers the method's requirement (raising when no memory service is
registered), otherwise route to a capable peer over HTTP and surface a
response error as a raised failure. On success returns the executing
node's id and its store-operation trace. (The local path additionally
broadcasts a flag_contradiction event; event traffic is outside this
claim.) -/
def clientFlagContradiction (n : NodeModel) (peerHasMemory : String → Bool)
    (r : Nat) (stmtId1 stmtId2 reason : String) :
    Except String (String × List StoreOp) :=
  if capSubset (methodCapabilities "flag_contradiction") n.capabilities then
    if n.hasMemory then
      Except.ok (n.nodeId, memoryFlagContradiction stmtId1 stmtId2 reason)
    else
      Except.error "No local MemoryService registered"
  else
    match routeMethod n.routing "flag_contradiction" n.nodeId r with
    | none => Except.error "No peer available"
    | some peer =>
      match handleRequestFlag peer.info.capabilities
          (peerHasMemory peer.info.node_id) stmtId1 stmtId2 reason with
      | (some e, _) => Except.error e
      | (none, ops) => Except.ok (peer.info.node_id, ops)

/-- C3. For every pair of statement ids and reason, flag_contradiction
through the memory API succeeds and produces a CONTRADICTS edge between
the two statements carrying the reason, both on the local path (node
capable, memory service registered) and on the RPC path (routing finds a
capable peer with a memory service). -/
theorem flag_contradiction_creates_edge :
    ∀ (n : NodeModel) (peerHasMemory : String → Bool) (r : Nat)
      (id1 id2 reason : String),
      ((capSubset (methodCapabilities "flag_contradiction") n.capabilities = true
          ∧ n.hasMemory = true)
        ∨ (capSubset (methodCapabilities "flag_contradiction") n.capabilities = false
          ∧ ∃ p, routeMethod n.routing "flag_contradiction" n.nodeId r = some p
              ∧ peerHasMemory p.info.node_id = true)) →
      ∃ executor ops,
        clientFlagContradiction n peerHasMemory r id1 id2 reason =
          Except.ok (executor, ops) ∧
        StoreOp.createRelationship id1 "CONTRADICTS" id2 [("reason", reason)] ∈ ops := by
  intro n pm r id1 id2 reason h
  rcases h with ⟨hcap, hmem⟩ | ⟨hcap, p, hroute, hpmem⟩
  · refine ⟨n.nodeId, memoryFlagContradiction id1 id2 reason, ?_, ?_⟩
    · simp [clientFlagContradiction, hcap, hmem]
    · simp [memoryFlagContradiction]
  · have hsound := routeCandidates_sound (routeMethod_mem_candidates hroute)
    refine ⟨p.info.node_id, memoryFlagContradiction id1 id2 reason, ?_, ?_⟩
    · simp only [clientFlagContradiction, hcap, Bool.false_eq_true, if_false]
      rw [hroute]
      simp [handleRequestFlag, hsound.2.1, hpmem]
    · simp [memoryFlagContradiction]

/-- A store-and-llm node with a registered memory service and no peers. -/
def storeLlmNode : NodeModel :=
  { nodeId := "n1", capabilities := [Capability.store, Capability.llm],
    hasMemory := true, routing := [] }

/-- Witness: the flag_contradiction theorem on the concrete local path. -/
theorem flag_contradiction_creates_edge_witness :
    ∃ executor ops,
      clientFlagContradiction storeLlmNode (fun _ => true) 0 "s1" "s2" "conflict" =
        Except.ok (executor, ops) ∧
      StoreOp.createRelationship "s1" "CONTRADICTS" "s2" [("reason", "conflict")] ∈ ops :=
  flag_contradiction_creates_edge storeLlmNode (fun _ => true) 0 "s1" "s2" "conflict"
    (Or.inl ⟨by decide, rfl⟩)

end AgenticMemory
